import Mathlib

/-!
Verification development for the multi-dimensional code analyzer
(`skills/code-refactoring-analysis/scripts/analyze_multidim.py`).

Each section embeds one component of the analyzer as executable Lean
definitions translated directly from the Python source (line numbers are
given next to every definition), and proves or refutes the documented
properties of that component.
-/

set_option maxRecDepth 8000

/-! ## Section 1: dimension scoring (scoring and aggregation engine)

The per-dimension scores are computed from issue counts by
severity-weighted penalties subtracted from 100.  The functions below are
the scoring tails of `analyze_maintainability` (lines 130-217),
`analyze_performance` (lines 274-288), `analyze_security` (lines 544-553),
`analyze_scalability` (lines 723-737) and `analyze_reusability`
(lines 1028-1034). -/

/-- Scoring part of `analyze_maintainability` (lines 134-192).  The score
starts at 0 (line 135) and is only assigned when the radon complexity tool
succeeds (lines 150-186); `none` models a failed or absent tool run,
`some data` the per-file lists of function complexities parsed from the
radon JSON output. -/
def analyze_maintainability_score (radonData : Option (List (List Nat))) : Int :=
  match radonData with
  | none => 0
  | some data =>
      let total : Nat := (data.map (fun fns => fns.sum)).sum
      let count : Nat := (data.map (fun fns => fns.length)).sum
      let avg : ℚ := if 0 < count then (total : ℚ) / (count : ℚ) else 0
      if avg ≤ 5 then 100 else if avg ≤ 10 then 80 else if avg ≤ 15 then 60 else 40

/-- Scoring part of `analyze_performance` (lines 280-288):
`penalty = high*8 + medium*3 + low*1`, `score = max(20, 100 - penalty)`. -/
def analyze_performance_score (high medium low : Nat) : Int :=
  max 20 (100 - ((high : Int) * 8 + (medium : Int) * 3 + (low : Int) * 1))

/-- Scoring part of `analyze_security` (lines 547-553):
`penalty = high*15 + medium*5 + low*1`, `score = max(20, 100 - penalty)`. -/
def analyze_security_score (high medium low : Nat) : Int :=
  max 20 (100 - ((high : Int) * 15 + (medium : Int) * 5 + (low : Int) * 1))

/-- Scoring part of `analyze_scalability` (lines 730-737): 10 per circular
dependency, 5 per god class, 3 per coupling issue, 2 per OCP/DIP
violation, `score = max(20, 100 - total_penalty)`. -/
def analyze_scalability_score (circular god coupling ocp dip : Nat) : Int :=
  max 20 (100 - ((circular : Int) * 10 + (god : Int) * 5 + (coupling : Int) * 3 +
    ((ocp : Int) + (dip : Int)) * 2))

/-- Scoring part of `analyze_reusability` (lines 1028-1034):
`duplication_penalty = 3*dup`, `dead_code_penalty = 1*dead`,
`extractable_bonus = min(2*extractable, 10)`; the bonus is subtracted from
the penalty before the `max(20, 100 - total_penalty)` clamp, so the result
can exceed 100. -/
def analyze_reusability_score (dupBlocks deadCode extractable : Nat) : Int :=
  let extractable_bonus : Int := min ((extractable : Int) * 2) 10
  let total_penalty : Int := (dupBlocks : Int) * 3 + (deadCode : Int) * 1 - extractable_bonus
  max 20 (100 - total_penalty)

/-- C1 counterexample: the claimed invariant `score ∈ [20, 100]` fails on
two concrete inputs.  When the radon complexity tool fails, the
maintainability score is 0 (below 20); with no duplicate blocks, no dead
code and 5 extractable patterns, the reusability score is 110 (above 100)
because the extractable-pattern bonus is applied after no penalty. -/
theorem C1_counterexample :
    analyze_maintainability_score none = 0 ∧
    analyze_reusability_score 0 0 5 = 110 := by
  exact ⟨rfl, by decide⟩

/-- C1 amended: the severity-penalty dimensions (performance, security,
scalability) always score in [20, 100]; maintainability scores in
[40, 100] when the complexity tool succeeds but 0 when it fails; the
reusability score lies in [20, 110], stays at most 100 when there is no
extractable-pattern bonus, and reaches 110 when the maximal bonus meets an
empty penalty. -/
theorem C1_theorem :
    (∀ h m l, 20 ≤ analyze_performance_score h m l ∧ analyze_performance_score h m l ≤ 100) ∧
    (∀ h m l, 20 ≤ analyze_security_score h m l ∧ analyze_security_score h m l ≤ 100) ∧
    (∀ c g t o d, 20 ≤ analyze_scalability_score c g t o d ∧
      analyze_scalability_score c g t o d ≤ 100) ∧
    (∀ data, 40 ≤ analyze_maintainability_score (some data) ∧
      analyze_maintainability_score (some data) ≤ 100) ∧
    analyze_maintainability_score none = 0 ∧
    (∀ d k p, 20 ≤ analyze_reusability_score d k p ∧ analyze_reusability_score d k p ≤ 110) ∧
    (∀ d k, analyze_reusability_score d k 0 ≤ 100) ∧
    analyze_reusability_score 0 0 5 = 110 := by
  refine ⟨?_, ?_, ?_, ?_, rfl, ?_, ?_, by decide⟩
  · intro h m l
    unfold analyze_performance_score
    omega
  · intro h m l
    unfold analyze_security_score
    omega
  · intro c g t o d
    unfold analyze_scalability_score
    omega
  · intro data
    unfold analyze_maintainability_score
    dsimp only
    split_ifs <;> norm_num
  · intro d k p
    simp only [analyze_reusability_score, min_def, max_def]
    split_ifs <;> omega
  · intro d k
    simp only [analyze_reusability_score, min_def, max_def]
    split_ifs <;> omega

/-! ## Section 2: tool tracking and confidence (lines 75-98)

`_track_tool` appends a tool name to `tools_used` on success (deduplicating
by name) and a `(tool, reason)` record to `tools_failed` on failure
(deduplicating by tool name).  `_finalize_meta` derives the confidence from
the tracked lists:
`round(max(0.5, 1.0 - failed*0.1 - (4 - available)*0.05), 2)` where
`available` counts the canonical tools `radon, bandit, pylint, pydeps`
present in `tools_used`. -/

/-- Canonical expected tools (line 93). -/
def expected_tools : List String := ["radon", "bandit", "pylint", "pydeps"]

/-- One call to `_track_tool` (lines 75-82): tool name, success flag and
failure reason. -/
structure ToolEvent where
  tool : String
  success : Bool
  reason : String
deriving DecidableEq, Repr

/-- Body of `_track_tool` (lines 75-82) acting on the pair
`(tools_used, tools_failed)`. -/
def track_tool (st : List String × List (String × String)) (ev : ToolEvent) :
    List String × List (String × String) :=
  if ev.success then
    if ev.tool ∈ st.1 then st else (st.1 ++ [ev.tool], st.2)
  else
    if ev.tool ∈ st.2.map Prod.fst then st else (st.1, st.2 ++ [(ev.tool, ev.reason)])

/-- The tracking state after a sequence of `_track_tool` calls, starting
from the empty lists initialized in `__init__` (lines 57-58). -/
def run_tracking (events : List ToolEvent) : List String × List (String × String) :=
  events.foldl track_tool ([], [])

/-- Python `round(x, 2)`; on the values produced by `_finalize_meta`
(integer multiples of 0.05) every tie-breaking convention agrees, so the
Mathlib `round` is used. -/
def round2 (q : ℚ) : ℚ := (round (q * 100) : ℚ) / 100

/-- Confidence computation of `_finalize_meta` (lines 92-98). -/
def finalize_confidence (events : List ToolEvent) : ℚ :=
  let st := run_tracking events
  let available_count : Nat := (expected_tools.filter (fun t => t ∈ st.1)).length
  let failed_count : Nat := st.2.length
  round2 (max (1/2 : ℚ)
    (1 - (failed_count : ℚ) * (1/10) - (((4 - available_count : Nat) : ℚ)) * (1/20)))

/-- Names of the tools that succeeded at least once (specification side). -/
def succeeded_names (events : List ToolEvent) : List String :=
  (events.filter (fun e => e.success)).map (fun e => e.tool)

/-- Names of the tools that failed at least once (specification side). -/
def failed_names (events : List ToolEvent) : List String :=
  (events.filter (fun e => !e.success)).map (fun e => e.tool)


lemma succeeded_names_cons (ev : ToolEvent) (rest : List ToolEvent) (x : String) :
    x ∈ succeeded_names (ev :: rest) ↔
      (ev.success = true ∧ x = ev.tool) ∨ x ∈ succeeded_names rest := by
  unfold succeeded_names
  rw [List.filter_cons]
  by_cases hs : ev.success
  · rw [if_pos (by simpa using hs)]
    simp [hs]
  · rw [if_neg (by simpa using hs)]
    simp [hs]

lemma failed_names_cons (ev : ToolEvent) (rest : List ToolEvent) (x : String) :
    x ∈ failed_names (ev :: rest) ↔
      (ev.success = false ∧ x = ev.tool) ∨ x ∈ failed_names rest := by
  unfold failed_names
  rw [List.filter_cons]
  by_cases hs : ev.success
  · rw [if_neg (by simpa using hs)]
    simp [hs]
  · rw [if_pos (by simpa using hs)]
    simp [hs]

lemma track_tool_fst_mem (st : List String × List (String × String)) (ev : ToolEvent)
    (x : String) :
    x ∈ (track_tool st ev).1 ↔ x ∈ st.1 ∨ (ev.success = true ∧ x = ev.tool) := by
  unfold track_tool
  by_cases hs : ev.success
  · by_cases hm : ev.tool ∈ st.1
    · rw [if_pos hs, if_pos hm]
      refine ⟨Or.inl, ?_⟩
      rintro (h | ⟨-, rfl⟩)
      · exact h
      · exact hm
    · rw [if_pos hs, if_neg hm]
      dsimp only
      rw [List.mem_append, List.mem_singleton]
      simp [hs]
  · rw [if_neg hs]
    by_cases hm : ev.tool ∈ st.2.map Prod.fst
    · rw [if_pos hm]
      simp [hs]
    · rw [if_neg hm]
      dsimp only
      simp [hs]

lemma track_tool_snd_mem (st : List String × List (String × String)) (ev : ToolEvent)
    (x : String) :
    x ∈ (track_tool st ev).2.map Prod.fst ↔
      x ∈ st.2.map Prod.fst ∨ (ev.success = false ∧ x = ev.tool) := by
  unfold track_tool
  by_cases hs : ev.success
  · rw [if_pos hs]
    by_cases hm : ev.tool ∈ st.1
    · rw [if_pos hm]
      simp [hs]
    · rw [if_neg hm]
      dsimp only
      simp [hs]
  · rw [if_neg hs]
    by_cases hm : ev.tool ∈ st.2.map Prod.fst
    · rw [if_pos hm]
      refine ⟨Or.inl, ?_⟩
      rintro (h | ⟨-, rfl⟩)
      · exact h
      · exact hm
    · rw [if_neg hm]
      dsimp only
      rw [List.map_append, List.mem_append]
      simp [hs]

lemma foldl_track_fst_mem (events : List ToolEvent) :
    ∀ (st : List String × List (String × String)) (x : String),
      x ∈ (events.foldl track_tool st).1 ↔ x ∈ st.1 ∨ x ∈ succeeded_names events := by
  induction events with
  | nil => intro st x; simp [succeeded_names]
  | cons ev rest ih =>
      intro st x
      rw [List.foldl_cons, ih, track_tool_fst_mem, succeeded_names_cons]
      tauto

lemma foldl_track_snd_mem (events : List ToolEvent) :
    ∀ (st : List String × List (String × String)) (x : String),
      x ∈ (events.foldl track_tool st).2.map Prod.fst ↔
        x ∈ st.2.map Prod.fst ∨ x ∈ failed_names events := by
  induction events with
  | nil => intro st x; simp [failed_names]
  | cons ev rest ih =>
      intro st x
      rw [List.foldl_cons, ih, track_tool_snd_mem, failed_names_cons]
      tauto

lemma foldl_track_snd_nodup (events : List ToolEvent) :
    ∀ (st : List String × List (String × String)), (st.2.map Prod.fst).Nodup →
      ((events.foldl track_tool st).2.map Prod.fst).Nodup := by
  induction events with
  | nil => intro st h; simpa using h
  | cons ev rest ih =>
      intro st h
      rw [List.foldl_cons]
      apply ih
      unfold track_tool
      by_cases hs : ev.success
      · rw [if_pos hs]
        by_cases hm : ev.tool ∈ st.1
        · rwa [if_pos hm]
        · rwa [if_neg hm]
      · rw [if_neg hs]
        by_cases hm : ev.tool ∈ st.2.map Prod.fst
        · rwa [if_pos hm]
        · rw [if_neg hm]
          dsimp only
          rw [List.map_append, List.nodup_append]
          refine ⟨h, by simp, ?_⟩
          intro a ha hb
          simp only [List.map_cons, List.map_nil, List.mem_singleton] at hb
          subst hb
          exact hm ha

lemma conf_formula_int (a b : ℕ) :
    max (1/2 : ℚ) (1 - (a : ℚ) * (1/10) - (b : ℚ) * (1/20)) =
      ((max 50 (100 - 10*(a : ℤ) - 5*(b : ℤ)) : ℤ) : ℚ) / 100 := by
  rw [Int.cast_max, ← max_div_div_right (by norm_num : (0:ℚ) ≤ 100)]
  congr 1
  · norm_num
  · push_cast
    ring

lemma round2_conf_fixed (a b : ℕ) :
    round2 (max (1/2 : ℚ) (1 - (a : ℚ) * (1/10) - (b : ℚ) * (1/20))) =
      max (1/2 : ℚ) (1 - (a : ℚ) * (1/10) - (b : ℚ) * (1/20)) := by
  rw [conf_formula_int]
  unfold round2
  rw [div_mul_cancel₀ _ (by norm_num : (100:ℚ) ≠ 0), round_intCast]

/-- C5: the reported confidence equals
`max(0.5, 1 - 0.1 * (number of distinct failed tools) - 0.05 * (number of
canonical tools that never succeeded))`, and for every sequence of tool
outcomes it lies in `[0.5, 1]`. -/
theorem C5_theorem (events : List ToolEvent) :
    finalize_confidence events =
      max (1/2 : ℚ)
        (1 - ((failed_names events).toFinset.card : ℚ) * (1/10)
          - ((expected_tools.filter (fun t => t ∉ succeeded_names events)).length : ℚ) * (1/20)) ∧
    (1/2 : ℚ) ≤ finalize_confidence events ∧ finalize_confidence events ≤ 1 := by
  have hfailed : (run_tracking events).2.length = (failed_names events).toFinset.card := by
    have hnd : ((run_tracking events).2.map Prod.fst).Nodup :=
      foldl_track_snd_nodup events ([], []) (by simp)
    have hmem : ∀ x, x ∈ (run_tracking events).2.map Prod.fst ↔ x ∈ failed_names events := by
      intro x
      simpa using foldl_track_snd_mem events ([], []) x
    have hset : ((run_tracking events).2.map Prod.fst).toFinset = (failed_names events).toFinset := by
      apply Finset.ext
      intro x
      simp only [List.mem_toFinset]
      exact hmem x
    calc (run_tracking events).2.length
        = ((run_tracking events).2.map Prod.fst).length := (List.length_map _ _).symm
      _ = ((run_tracking events).2.map Prod.fst).dedup.length := by rw [hnd.dedup]
      _ = ((run_tracking events).2.map Prod.fst).toFinset.card := (List.card_toFinset _).symm
      _ = (failed_names events).toFinset.card := by rw [hset]
  have hfilter : expected_tools.filter (fun t => t ∈ (run_tracking events).1) =
      expected_tools.filter (fun t => t ∈ succeeded_names events) := by
    apply List.filter_congr
    intro a _
    apply decide_eq_decide.mpr
    simpa using foldl_track_fst_mem events ([], []) a
  have havail : (expected_tools.filter (fun t => t ∈ (run_tracking events).1)).length +
      (expected_tools.filter (fun t => t ∉ succeeded_names events)).length = 4 := by
    rw [hfilter]
    have h4 := List.length_eq_length_filter_add
      (l := expected_tools) (fun t => decide (t ∈ succeeded_names events))
    have hlen : expected_tools.length = 4 := by decide
    have hneg : expected_tools.filter (fun t => !decide (t ∈ succeeded_names events)) =
        expected_tools.filter (fun t => t ∉ succeeded_names events) := by
      apply List.filter_congr
      intro a _
      simp
    rw [hlen, hneg] at h4
    exact h4.symm
  set a : ℕ := (failed_names events).toFinset.card with ha
  set b : ℕ := (expected_tools.filter (fun t => t ∉ succeeded_names events)).length with hb
  have hconf : finalize_confidence events =
      max (1/2 : ℚ) (1 - (a : ℚ) * (1/10) - (b : ℚ) * (1/20)) := by
    show round2 _ = _
    have hsub : (4 - (expected_tools.filter
        (fun t => t ∈ (run_tracking events).1)).length : ℕ) = b := by omega
    rw [hfailed, hsub]
    exact round2_conf_fixed a b
  refine ⟨hconf, ?_, ?_⟩
  · rw [hconf]
    exact le_max_left _ _
  · rw [hconf]
    apply max_le
    · norm_num
    · have haq : (0:ℚ) ≤ (a : ℚ) := Nat.cast_nonneg a
      have hbq : (0:ℚ) ≤ (b : ℚ) := Nat.cast_nonneg b
      nlinarith

/-! ## Section 3: SOLID detectors over walked class definitions

`_find_god_classes` (lines 790-824) and `_find_tight_coupling`
(lines 826-864) iterate over the Python files, walk the AST of each file
and inspect every `ClassDef` node.  A walked class is modeled by
`ClassInfo`: its name, line range and the direct body items that the two
detectors read (function definitions together with the `ast.Call` nodes
found by `ast.walk` inside them, classified by the shape of their `func`
expression). -/

/-- Shape of the `func` of an `ast.Call` node: a plain `ast.Name` (with its
identifier) or anything else. -/
inductive CallFunc where
  | name (id : String)
  | other
deriving DecidableEq, Repr

/-- A direct body item of a `ClassDef` as read by the detectors: a
(possibly async) function definition carrying the call nodes of its walk,
or any other statement. -/
inductive ClassBodyItem where
  | funcDef (fname : String) (walkCalls : List CallFunc)
  | asyncFuncDef (fname : String) (walkCalls : List CallFunc)
  | otherItem
deriving DecidableEq, Repr

/-- A walked `ast.ClassDef` node with the fields the detectors read. -/
structure ClassInfo where
  cname : String
  lineno : Nat
  endLineno : Option Nat
  body : List ClassBodyItem
deriving DecidableEq, Repr

/-- Line 804: number of direct body items that are `FunctionDef` or
`AsyncFunctionDef`. -/
def method_count (c : ClassInfo) : Nat :=
  (c.body.filter (fun it => match it with
    | .funcDef _ _ => true
    | .asyncFuncDef _ _ => true
    | .otherItem => false)).length

/-- Line 807: `node.end_lineno - node.lineno + 1` when `end_lineno` is
present, `0` otherwise. -/
def class_lines (c : ClassInfo) : Int :=
  match c.endLineno with
  | some e => (e : Int) - (c.lineno : Int) + 1
  | none => 0

/-- The issue record appended at lines 810-819. -/
structure GodClassIssue where
  file : String
  klass : String
  line : Nat
  methodCount : Nat
  classLines : Int
  violation : String
  message : String
  severity : String
deriving DecidableEq, Repr

def god_class_issue (file : String) (c : ClassInfo) : GodClassIssue :=
  { file := file, klass := c.cname, line := c.lineno, methodCount := method_count c,
    classLines := class_lines c, violation := "Single Responsibility Principle",
    message := "Class has " ++ toString (method_count c) ++ " methods and " ++
      toString (class_lines c) ++ " lines - consider splitting",
    severity := "medium" }

/-- `_find_god_classes` (lines 790-824): one issue is appended for a class
when `method_count > 20 or class_lines > 500` (line 809). -/
def find_god_classes (files : List (String × List ClassInfo)) : List GodClassIssue :=
  files.foldl (fun acc f =>
    f.2.foldl (fun acc2 c =>
      if 20 < method_count c ∨ 500 < class_lines c then acc2 ++ [god_class_issue f.1 c]
      else acc2) acc) []

lemma foldl_ite_append {α β : Type} (p : α → Prop) [DecidablePred p] (g : α → β) :
    ∀ (l : List α) (acc : List β),
      l.foldl (fun acc c => if p c then acc ++ [g c] else acc) acc
        = acc ++ (l.filter (fun c => decide (p c))).map g := by
  intro l
  induction l with
  | nil => intro acc; simp
  | cons c rest ih =>
      intro acc
      rw [List.foldl_cons]
      by_cases hc : p c
      · rw [if_pos hc, ih, List.filter_cons, if_pos (by simpa using hc)]
        simp
      · rw [if_neg hc, ih, List.filter_cons, if_neg (by simpa using hc)]

lemma foldl_inner_append {γ β : Type} (h : γ → List β)
    (step : List β → γ → List β) (hstep : ∀ acc f, step acc f = acc ++ h f) :
    ∀ (files : List γ) (acc : List β),
      files.foldl step acc = acc ++ (files.map h).flatten := by
  intro files
  induction files with
  | nil => intro acc; simp
  | cons f rest ih =>
      intro acc
      rw [List.foldl_cons, hstep, ih]
      simp [List.append_assoc]

/-- C6: `find_god_classes` flags a class exactly when its method count
exceeds 20 or its line span exceeds 500, emitting exactly one issue per
flagged class; boundary instances: a class with 21 methods (span ≤ 500) is
flagged, one with 20 methods is not. -/
theorem C6_theorem :
    (∀ files : List (String × List ClassInfo),
      find_god_classes files = (files.map (fun f =>
        (f.2.filter (fun c => decide (20 < method_count c ∨ 500 < class_lines c))).map
          (god_class_issue f.1))).flatten) ∧
    (let class21 : ClassInfo :=
      ⟨"Wide", 1, some 100, List.replicate 21 (ClassBodyItem.funcDef "m" [])⟩
     find_god_classes [("big.py", [class21])] = [god_class_issue "big.py" class21]) ∧
    (let class20 : ClassInfo :=
      ⟨"Fine", 1, some 100, List.replicate 20 (ClassBodyItem.funcDef "m" [])⟩
     find_god_classes [("ok.py", [class20])] = []) := by
  refine ⟨?_, by decide, by decide⟩
  intro files
  unfold find_god_classes
  exact foldl_inner_append _ _
    (fun acc f => foldl_ite_append (fun c => 20 < method_count c ∨ 500 < class_lines c)
      (god_class_issue f.1) f.2 acc) files []

/-- First character uppercase test: Python `s[0].isupper()` for a
nonempty identifier (AST identifiers are never empty). -/
def first_char_upper (s : String) : Bool :=
  match s.toList with
  | [] => false
  | c :: _ => c.isUpper

/-- Lines 841-849: number of `ast.Call` nodes inside the walk of the
`__init__` body items whose `func` is a capitalized `ast.Name`; repeated
constructor names are counted once per occurrence. -/
def init_instantiations (c : ClassInfo) : Nat :=
  c.body.foldl (fun n it =>
    match it with
    | .funcDef fname calls =>
        if fname = "__init__" then
          n + (calls.filter (fun cf => match cf with
            | .name id => first_char_upper id
            | .other => false)).length
        else n
    | .asyncFuncDef _ _ => n
    | .otherItem => n) 0

/-- Specification-side quantity: the distinct capitalized constructor
names instantiated inside `__init__` (the quantity named by the claim). -/
def distinct_init_ctors (c : ClassInfo) : List String :=
  ((c.body.map (fun it =>
    match it with
    | .funcDef fname calls =>
        if fname = "__init__" then
          calls.filterMap (fun cf => match cf with
            | .name id => if first_char_upper id then some id else none
            | .other => none)
        else []
    | .asyncFuncDef _ _ => []
    | .otherItem => [])).flatten).dedup

/-- The issue record appended at lines 852-859. -/
structure CouplingIssue where
  file : String
  klass : String
  line : Nat
  instantiations : Nat
  message : String
  severity : String
deriving DecidableEq, Repr

def coupling_issue (file : String) (c : ClassInfo) : CouplingIssue :=
  { file := file, klass := c.cname, line := c.lineno,
    instantiations := init_instantiations c,
    message := "Class creates " ++ toString (init_instantiations c) ++
      " dependencies in __init__ - consider dependency injection",
    severity := "medium" }

/-- `_find_tight_coupling` (lines 826-864): one issue per class with
`init_instantiations > 5` (line 851). -/
def find_tight_coupling (files : List (String × List ClassInfo)) : List CouplingIssue :=
  files.foldl (fun acc f =>
    f.2.foldl (fun acc2 c =>
      if 5 < init_instantiations c then acc2 ++ [coupling_issue f.1 c]
      else acc2) acc) []

/-- Example class whose `__init__` instantiates the same capitalized name
six times. -/
def repeatedCtorClass : ClassInfo :=
  ⟨"Service", 1, some 30,
    [ClassBodyItem.funcDef "__init__" (List.replicate 6 (CallFunc.name "Foo"))]⟩

/-- C7 counterexample: the detector counts instantiation occurrences, not
distinct constructor names.  A class whose `__init__` calls `Foo()` six
times is flagged although it instantiates a single distinct class, so
"flag iff more than 5 distinct constructor names" is false on this
input. -/
theorem C7_counterexample :
    find_tight_coupling [("svc.py", [repeatedCtorClass])]
      = [coupling_issue "svc.py" repeatedCtorClass] ∧
    (distinct_init_ctors repeatedCtorClass).length = 1 := by
  constructor
  · decide
  · decide

/-- C7 amended: the tight-coupling detector flags a class if and only if
the number of capitalized-constructor instantiation occurrences inside its
`__init__` exceeds 5, counting repeated instantiations of the same class
name once per occurrence (not once per distinct name). -/
theorem C7_theorem :
    (∀ files : List (String × List ClassInfo),
      find_tight_coupling files = (files.map (fun f =>
        (f.2.filter (fun c => decide (5 < init_instantiations c))).map
          (coupling_issue f.1))).flatten) ∧
    init_instantiations repeatedCtorClass = 6 ∧
    (distinct_init_ctors repeatedCtorClass).length = 1 := by
  refine ⟨?_, by decide, by decide⟩
  intro files
  unfold find_tight_coupling
  exact foldl_inner_append _ _
    (fun acc f => foldl_ite_append (fun c => 5 < init_instantiations c)
      (coupling_issue f.1) f.2 acc) files []

/-! ## Section 4: dimension dispatch and CLI flow

`MultiDimensionalAnalyzer.analyze` (lines 100-128) runs one hard-coded
`if name in self.dimensions` block per canonical dimension and performs no
validation of unknown names.  `main` (lines 1302-1356) parses
`--dimensions`, never checks that the project path exists, always writes
the report and returns 0. -/

def canonical_dimensions : List String :=
  ["maintainability", "performance", "security", "scalability", "reusability"]

/-- Python `str.split(sep)` for a one-character separator. -/
def split_comma_chars : List Char → List Char → List String
  | [], cur => [String.mk cur.reverse]
  | c :: rest, cur =>
      if c = ',' then String.mk cur.reverse :: split_comma_chars rest []
      else split_comma_chars rest (c :: cur)

def py_split_comma (s : String) : List String := split_comma_chars s.toList []

/-- Python `str.strip()`. -/
def py_strip (s : String) : String :=
  String.mk (((s.toList.dropWhile Char.isWhitespace).reverse.dropWhile Char.isWhitespace).reverse)

/-- Lines 1326-1329: dimension-list parsing in `main`; no name
validation happens here or anywhere else. -/
def parse_dimensions (allFlag : Bool) (dimsArg : String) : List String :=
  if allFlag = true ∨ dimsArg = "all" then canonical_dimensions
  else (py_split_comma dimsArg).map py_strip

/-- Lines 104-117: the dimension keys produced in the report by
`analyze`; a requested name outside the five hard-coded ones simply
matches no branch. -/
def analyze_dimensions (dims : List String) : List String :=
  (if "maintainability" ∈ dims then ["maintainability"] else []) ++
  (if "performance" ∈ dims then ["performance"] else []) ++
  (if "security" ∈ dims then ["security"] else []) ++
  (if "scalability" ∈ dims then ["scalability"] else []) ++
  (if "reusability" ∈ dims then ["reusability"] else [])

/-- Outcome of a `main` invocation.  The `configError` constructor exists
so that the specified fail-fast behaviour is expressible; the embedded
control flow of `main` never produces it. -/
inductive MainResult where
  | completed (exitCode : Nat) (dimensionsInReport : List String)
  | configError (message : String)
deriving DecidableEq, Repr

def MainResult.isError : MainResult → Bool
  | .completed _ _ => false
  | .configError _ => true

/-- Control flow of `main` (lines 1302-1356): parse dimensions, run
`analyze`, write the report, `return 0`.  No branch inspects whether the
project path exists and no branch validates dimension names, so the
outcome is `completed 0 _` for every input. -/
def main_run (_projectExists : Bool) (allFlag : Bool) (dimsArg : String) : MainResult :=
  MainResult.completed 0 (analyze_dimensions (parse_dimensions allFlag dimsArg))

/-- C8 counterexample: with a nonexistent project path and the invalid
dimension name `bogus`, the run does not fail: it completes with exit
code 0 and an empty dimensions map, contradicting the claimed fatal
configuration error. -/
theorem C8_counterexample :
    main_run false false "bogus" = MainResult.completed 0 [] ∧
    (main_run false false "bogus").isError = false := by
  constructor
  · decide
  · decide

lemma analyze_dimensions_eq_filter (dims : List String) :
    analyze_dimensions dims =
      canonical_dimensions.filter (fun n => decide (n ∈ dims)) := by
  by_cases h1 : "maintainability" ∈ dims <;>
    by_cases h2 : "performance" ∈ dims <;>
      by_cases h3 : "security" ∈ dims <;>
        by_cases h4 : "scalability" ∈ dims <;>
          by_cases h5 : "reusability" ∈ dims <;>
            simp [analyze_dimensions, canonical_dimensions, h1, h2, h3, h4, h5, List.filter]

/-- C8 amended: for every combination of project-path existence, `--all`
flag and `--dimensions` argument, `main` completes with exit code 0 and a
report whose dimension keys are exactly the canonical names that were
requested; invalid dimension names are silently ignored and a nonexistent
project path does not abort the run. -/
theorem C8_theorem :
    ∀ (projectExists allFlag : Bool) (dimsArg : String),
      ∃ dims, main_run projectExists allFlag dimsArg = MainResult.completed 0 dims ∧
        dims = canonical_dimensions.filter
          (fun n => decide (n ∈ parse_dimensions allFlag dimsArg)) ∧
        (∀ n, n ∈ dims ↔ n ∈ canonical_dimensions ∧ n ∈ parse_dimensions allFlag dimsArg) := by
  intro _projectExists allFlag dimsArg
  refine ⟨_, rfl, analyze_dimensions_eq_filter _, ?_⟩
  intro n
  rw [analyze_dimensions_eq_filter, List.mem_filter]
  simp

/-! ## Section 5: priority action generator (lines 1274-1299)

`_generate_priority_actions` appends a high action for dimensions scoring
below 60, a medium action for scores in [60, 75), sorts ascending by score
(Python `list.sort` is stable; so is `List.mergeSort`) and keeps the first
five entries. -/

structure PriorityAction where
  dimension : String
  priority : String
  score : Int
  action : String
deriving DecidableEq, Repr

/-- The action record built for one dimension (lines 1281-1294), `none`
when the score is at least 75. -/
def priority_action_of (p : String × Int) : Option PriorityAction :=
  if p.2 < 60 then
    some ⟨p.1, "high", p.2, "Address critical " ++ p.1 ++ " issues immediately"⟩
  else if p.2 < 75 then
    some ⟨p.1, "medium", p.2, "Improve " ++ p.1 ++ " in next iteration"⟩
  else none

/-- `_generate_priority_actions` (lines 1274-1299) over the map of
dimension scores (`data.get('score', 0)` values). -/
def generate_priority_actions (dims : List (String × Int)) : List PriorityAction :=
  let actions := dims.foldl (fun acc p =>
    if p.2 < 60 then
      acc ++ [⟨p.1, "high", p.2, "Address critical " ++ p.1 ++ " issues immediately"⟩]
    else if p.2 < 75 then
      acc ++ [⟨p.1, "medium", p.2, "Improve " ++ p.1 ++ " in next iteration"⟩]
    else acc) []
  (actions.mergeSort (fun a b => a.score ≤ b.score)).take 5

lemma generate_actions_foldl (dims : List (String × Int)) :
    ∀ acc, dims.foldl (fun acc p =>
      if p.2 < 60 then
        acc ++ [⟨p.1, "high", p.2, "Address critical " ++ p.1 ++ " issues immediately"⟩]
      else if p.2 < 75 then
        acc ++ [⟨p.1, "medium", p.2, "Improve " ++ p.1 ++ " in next iteration"⟩]
      else acc) acc = acc ++ dims.filterMap priority_action_of := by
  induction dims with
  | nil => intro acc; simp
  | cons p rest ih =>
      intro acc
      rw [List.foldl_cons]
      by_cases h60 : p.2 < 60
      · rw [if_pos h60, ih, List.filterMap_cons]
        unfold priority_action_of
        rw [if_pos h60]
        simp
      · rw [if_neg h60]
        by_cases h75 : p.2 < 75
        · rw [if_pos h75, ih, List.filterMap_cons]
          unfold priority_action_of
          rw [if_neg h60, if_pos h75]
          simp
        · rw [if_neg h75, ih, List.filterMap_cons]
          unfold priority_action_of
          rw [if_neg h60, if_neg h75]

lemma priority_action_of_eq_some (p : String × Int) (a : PriorityAction) :
    priority_action_of p = some a ↔
      ((p.2 < 60 ∧ a = ⟨p.1, "high", p.2, "Address critical " ++ p.1 ++ " issues immediately"⟩) ∨
       (60 ≤ p.2 ∧ p.2 < 75 ∧
         a = ⟨p.1, "medium", p.2, "Improve " ++ p.1 ++ " in next iteration"⟩)) := by
  unfold priority_action_of
  by_cases h60 : p.2 < 60
  · rw [if_pos h60]
    constructor
    · intro h
      exact Or.inl ⟨h60, (Option.some_injective _ h).symm⟩
    · rintro (⟨-, rfl⟩ | ⟨h60x, -, -⟩)
      · rfl
      · omega
  · rw [if_neg h60]
    by_cases h75 : p.2 < 75
    · rw [if_pos h75]
      constructor
      · intro h
        exact Or.inr ⟨by omega, h75, (Option.some_injective _ h).symm⟩
      · rintro (⟨h60x, rfl⟩ | ⟨-, -, rfl⟩)
        · omega
        · rfl
    · rw [if_neg h75]
      constructor
      · intro h
        simp at h
      · rintro (⟨h60x, -⟩ | ⟨-, h75x, -⟩) <;> omega

lemma nodup_keys_eq {p q : String × Int} {dims : List (String × Int)}
    (hnd : (dims.map Prod.fst).Nodup) (hp : p ∈ dims) (hq : q ∈ dims) (h : p.1 = q.1) :
    p = q := by
  induction dims with
  | nil => cases hp
  | cons r rest ih =>
      rw [List.map_cons, List.nodup_cons] at hnd
      rcases hnd with ⟨hr, hrest⟩
      rcases List.mem_cons.mp hp with rfl | hp'
      · rcases List.mem_cons.mp hq with rfl | hq'
        · rfl
        · exact absurd (h ▸ List.mem_map_of_mem Prod.fst hq') hr
      · rcases List.mem_cons.mp hq with rfl | hq'
        · exact absurd (h ▸ List.mem_map_of_mem Prod.fst hp') hr
        · exact ih hrest hp' hq'

/-- C9: for a score map with at most five dimensions and distinct
dimension names, the generator emits a high action exactly for scores
below 60, a medium action exactly for scores in [60, 75), no action for
scores at least 75, and the output is sorted ascending by score with at
most five entries. -/
theorem C9_theorem (dims : List (String × Int)) (hlen : dims.length ≤ 5)
    (hnodup : (dims.map Prod.fst).Nodup) :
    (∀ a, a ∈ generate_priority_actions dims ↔
      ∃ p ∈ dims,
        ((p.2 < 60 ∧
          a = ⟨p.1, "high", p.2, "Address critical " ++ p.1 ++ " issues immediately"⟩) ∨
         (60 ≤ p.2 ∧ p.2 < 75 ∧
          a = ⟨p.1, "medium", p.2, "Improve " ++ p.1 ++ " in next iteration"⟩))) ∧
    List.Pairwise (fun a b : PriorityAction => a.score ≤ b.score)
      (generate_priority_actions dims) ∧
    (generate_priority_actions dims).length ≤ 5 ∧
    (∀ p ∈ dims, 75 ≤ p.2 → ∀ a ∈ generate_priority_actions dims, a.dimension ≠ p.1) := by
  have hfold : generate_priority_actions dims =
      ((dims.filterMap priority_action_of).mergeSort
        (fun a b => a.score ≤ b.score)).take 5 := by
    unfold generate_priority_actions
    rw [generate_actions_foldl dims []]
    simp
  have hlenfm : (dims.filterMap priority_action_of).length ≤ 5 :=
    le_trans (List.length_filterMap_le _ _) hlen
  have hlenms : (((dims.filterMap priority_action_of)).mergeSort
      (fun a b => a.score ≤ b.score)).length ≤ 5 := by
    rw [(List.mergeSort_perm _ _).length_eq]
    exact hlenfm
  have htake : (((dims.filterMap priority_action_of)).mergeSort
      (fun a b => a.score ≤ b.score)).take 5 =
      ((dims.filterMap priority_action_of)).mergeSort (fun a b => a.score ≤ b.score) :=
    List.take_of_length_le hlenms
  have hmem : ∀ a, a ∈ generate_priority_actions dims ↔
      a ∈ dims.filterMap priority_action_of := by
    intro a
    rw [hfold, htake]
    exact (List.mergeSort_perm _ _).mem_iff
  have hchar : ∀ a, a ∈ generate_priority_actions dims ↔
      ∃ p ∈ dims,
        ((p.2 < 60 ∧
          a = ⟨p.1, "high", p.2, "Address critical " ++ p.1 ++ " issues immediately"⟩) ∨
         (60 ≤ p.2 ∧ p.2 < 75 ∧
          a = ⟨p.1, "medium", p.2, "Improve " ++ p.1 ++ " in next iteration"⟩)) := by
    intro a
    rw [hmem, List.mem_filterMap]
    constructor
    · rintro ⟨p, hp, hsome⟩
      exact ⟨p, hp, (priority_action_of_eq_some p a).mp hsome⟩
    · rintro ⟨p, hp, hcase⟩
      exact ⟨p, hp, (priority_action_of_eq_some p a).mpr hcase⟩
  refine ⟨hchar, ?_, ?_, ?_⟩
  · rw [hfold, htake]
    have hsorted := @List.sorted_mergeSort PriorityAction
      (fun a b : PriorityAction => decide (a.score ≤ b.score))
      (fun a b c hab hbc => by
        simp only [decide_eq_true_eq] at hab hbc ⊢
        omega)
      (fun a b => by
        simp only [Bool.or_eq_true, decide_eq_true_eq]
        omega)
      (dims.filterMap priority_action_of)
    exact hsorted.imp (fun {x y} h => by simpa using h)
  · rw [hfold]
    exact le_trans (List.length_take_le _ _) (le_refl 5)
  · intro p hp h75 a ha hdim
    rcases (hchar a).mp ha with ⟨q, hq, hcase⟩
    have hq1 : a.dimension = q.1 := by
      rcases hcase with ⟨_, rfl⟩ | ⟨_, _, rfl⟩ <;> rfl
    have hpq : q = p := nodup_keys_eq hnodup hq hp (by rw [← hq1, hdim])
    have h2 : q.2 = p.2 := by rw [hpq]
    rcases hcase with ⟨hlt, -⟩ | ⟨-, hlt, -⟩ <;> omega

/-- C9 witness: the theorem applied to a concrete three-dimension score
map with one high, one medium and one silent dimension. -/
theorem C9_witness :
    ([("maintainability", (50 : Int)), ("security", 70), ("performance", 90)].length ≤ 5) ∧
    (([("maintainability", (50 : Int)), ("security", 70), ("performance", 90)].map
      Prod.fst).Nodup) ∧
    List.Pairwise (fun a b : PriorityAction => a.score ≤ b.score)
      (generate_priority_actions
        [("maintainability", 50), ("security", 70), ("performance", 90)]) := by
  refine ⟨by decide, by decide, ?_⟩
  exact (C9_theorem [("maintainability", 50), ("security", 70), ("performance", 90)]
    (by decide) (by decide)).2.1

/-! ## Section 6: dead code detector (`_detect_dead_code`, lines 1105-1201)

The detector iterates over the files once.  For each file it first walks
the AST collecting non-private definitions into the shared dict
`all_definitions` and identifier/attribute/call-target usages into the
shared set `all_usages`, then walks again flagging unused imports against
the usages accumulated so far.  After all files, definitions whose names
never occur in the (global) usage set and are not conventional entry
points are flagged.  The model keeps the two walk results of each file as
explicit event lists. -/

inductive DefKind where
  | functionDef
  | classDef
deriving DecidableEq, Repr

def DefKind.str : DefKind → String
  | .functionDef => "function"
  | .classDef => "class"

/-- A walked `FunctionDef`/`ClassDef` node (lines 1123-1142). -/
structure DefEvent where
  kind : DefKind
  name : String
  line : Nat
deriving DecidableEq, Repr

/-- One `ast.alias` of an import statement: `alias.name` and the optional
`alias.asname`. -/
structure ImportAlias where
  aliasName : String
  asname : Option String
deriving DecidableEq, Repr

/-- A walked `ast.Import` or `ast.ImportFrom` node (lines 1157-1182). -/
inductive ImportEvent where
  | importNode (names : List ImportAlias) (line : Nat)
  | importFromNode (moduleName : Option String) (names : List ImportAlias) (line : Nat)
deriving DecidableEq, Repr

/-- The information `_detect_dead_code` extracts from one parsed file:
walked definitions, walked usage names (`Name.id`, `Attribute.attr`,
call targets) and walked import statements. -/
structure PyFileModel where
  path : String
  defEvents : List DefEvent
  usageEvents : List String
  importEvents : List ImportEvent
deriving DecidableEq, Repr

/-- Value stored in `all_definitions` (lines 1127-1142). -/
structure DefInfo where
  file : String
  name : String
  line : Nat
  kind : DefKind
deriving DecidableEq, Repr

structure DeadCodeItem where
  file : String
  line : Nat
  itemType : String
  name : String
  message : String
  severity : String
deriving DecidableEq, Repr

/-- Python `name.startswith('_')`. -/
def starts_with_underscore (s : String) : Bool :=
  match s.toList with
  | '_' :: _ => true
  | _ => false

/-- Python `name.split('.')[0]`. -/
def head_before_dot (s : String) : String :=
  String.mk (s.toList.takeWhile (fun c => c ≠ '.'))

/-- Python dict assignment `d[k] = v`: overwrite in place when the key
exists, append otherwise (insertion order preserved). -/
def dict_insert (d : List (String × DefInfo)) (k : String) (v : DefInfo) :
    List (String × DefInfo) :=
  if d.any (fun kv => kv.1 == k) then
    d.map (fun kv => if kv.1 = k then (k, v) else kv)
  else d ++ [(k, v)]

/-- First walk of one file (lines 1122-1142): record every non-private
definition under the key `path:name`. -/
def collect_defs (path : String) (evs : List DefEvent) (acc : List (String × DefInfo)) :
    List (String × DefInfo) :=
  evs.foldl (fun acc ev =>
    if starts_with_underscore ev.name then acc
    else dict_insert acc (path ++ ":" ++ ev.name) ⟨path, ev.name, ev.line, ev.kind⟩) acc

/-- Unused-import items produced for one walked import node
(lines 1157-1182), checked against the usage set accumulated so far. -/
def import_chunk (path : String) (usages : List String) : ImportEvent → List DeadCodeItem
  | .importNode names line =>
      names.filterMap (fun al =>
        if al.asname.getD (head_before_dot al.aliasName) ∉ usages ∧
            starts_with_underscore (al.asname.getD (head_before_dot al.aliasName)) = false then
          some ⟨path, line, "unused_import", al.aliasName,
            "Unused import: " ++ al.aliasName, "low"⟩
        else none)
  | .importFromNode moduleName names line =>
      names.filterMap (fun al =>
        if al.asname.getD al.aliasName ∉ usages ∧ al.asname.getD al.aliasName ≠ "*" ∧
            starts_with_underscore (al.asname.getD al.aliasName) = false then
          some ⟨path, line, "unused_import",
            (match moduleName with
             | some m => m ++ "." ++ al.aliasName
             | none => al.aliasName),
            "Unused import: " ++ al.aliasName, "low"⟩
        else none)

/-- Second walk of one file (lines 1156-1182). -/
def import_flags_file (path : String) (evs : List ImportEvent) (usages : List String) :
    List DeadCodeItem :=
  evs.foldl (fun acc ev => acc ++ import_chunk path usages ev) []

/-- The per-file loop of `_detect_dead_code` (lines 1113-1185), threading
the shared `all_definitions`, `all_usages` and `dead_code` accumulators. -/
def dead_scan : List PyFileModel → List (String × DefInfo) → List String →
    List DeadCodeItem → List (String × DefInfo) × List String × List DeadCodeItem
  | [], defs, usages, items => (defs, usages, items)
  | f :: fs, defs, usages, items =>
      dead_scan fs (collect_defs f.path f.defEvents defs) (usages ++ f.usageEvents)
        (items ++ import_flags_file f.path f.importEvents (usages ++ f.usageEvents))

/-- The entry-point allow-list of line 1191. -/
def entry_point_names : List String := ["main", "setup", "teardown", "run"]

/-- Final definition pass (lines 1188-1199), checked against the global
usage set. -/
def def_flags (defs : List (String × DefInfo)) (usages : List String) : List DeadCodeItem :=
  defs.foldl (fun acc kv =>
    if kv.2.name ∉ usages then
      if kv.2.name ∉ entry_point_names then
        acc ++ [⟨kv.2.file, kv.2.line, "potentially_unused_" ++ kv.2.kind.str, kv.2.name,
          "Potentially unused " ++ kv.2.kind.str ++ ": " ++ kv.2.name, "low"⟩]
      else acc
    else acc) []

/-- `_detect_dead_code` (lines 1105-1201): import flags accumulated per
file, then definition flags, truncated to 100 items. -/
def detect_dead_code (files : List PyFileModel) : List DeadCodeItem :=
  let st := dead_scan files [] [] []
  (st.2.2 ++ def_flags st.1 st.2.1).take 100

/-- File defining `foo` without using it. -/
def fileDefFoo : PyFileModel := ⟨"a.py", [⟨DefKind.functionDef, "foo", 1⟩], [], []⟩

/-- File using the name `foo`. -/
def fileUseFoo : PyFileModel := ⟨"b.py", [], ["foo"], []⟩

/-- File importing `os` without using it. -/
def fileImportOs : PyFileModel := ⟨"c.py", [], [], [ImportEvent.importNode [⟨"os", none⟩] 1]⟩

/-- File using the name `os`. -/
def fileUseOs : PyFileModel := ⟨"d.py", [], ["os"], []⟩

/-- C2 counterexample: the usage set is global, not per-file.  `a.py`
defines `foo` and never uses it, so a per-file analysis (as claimed) must
flag it; but because `b.py` uses the name `foo`, the detector flags
nothing, while with `a.py` alone the flag appears. -/
theorem C2_counterexample :
    detect_dead_code [fileDefFoo, fileUseFoo] = [] ∧
    detect_dead_code [fileDefFoo] =
      [⟨"a.py", 1, "potentially_unused_function", "foo",
        "Potentially unused function: foo", "low"⟩] := by
  constructor
  · decide
  · decide

lemma import_chunk_item_type (path : String) (usages : List String) (ev : ImportEvent)
    (it : DeadCodeItem) (h : it ∈ import_chunk path usages ev) :
    it.itemType = "unused_import" := by
  cases ev with
  | importNode names line =>
      simp only [import_chunk] at h
      rcases List.mem_filterMap.mp h with ⟨al, -, hsome⟩
      split at hsome
      · injection hsome with h2
        subst h2
        rfl
      · exact Option.noConfusion hsome
  | importFromNode moduleName names line =>
      simp only [import_chunk] at h
      rcases List.mem_filterMap.mp h with ⟨al, -, hsome⟩
      split at hsome
      · injection hsome with h2
        subst h2
        rfl
      · exact Option.noConfusion hsome

lemma import_flags_item_type (path : String) (evs : List ImportEvent)
    (usages : List String) (it : DeadCodeItem) (h : it ∈ import_flags_file path evs usages) :
    it.itemType = "unused_import" := by
  unfold import_flags_file at h
  rw [foldl_inner_append (import_chunk path usages) _ (fun acc ev => rfl) evs []] at h
  rw [List.nil_append, List.mem_flatten] at h
  rcases h with ⟨chunk, hchunk, hit⟩
  rcases List.mem_map.mp hchunk with ⟨ev, -, rfl⟩
  exact import_chunk_item_type path usages ev it hit

lemma dead_scan_item_type :
    ∀ (files : List PyFileModel) (defs : List (String × DefInfo)) (usages : List String)
      (items : List DeadCodeItem) (it : DeadCodeItem),
      it ∈ (dead_scan files defs usages items).2.2 →
      it ∈ items ∨ it.itemType = "unused_import" := by
  intro files
  induction files with
  | nil =>
      intro defs usages items it h
      exact Or.inl h
  | cons f fs ih =>
      intro defs usages items it h
      rw [dead_scan] at h
      rcases ih _ _ _ it h with hmem | htype
      · rcases List.mem_append.mp hmem with h1 | h2
        · exact Or.inl h1
        · exact Or.inr (import_flags_item_type _ _ _ _ h2)
      · exact Or.inr htype

lemma def_flags_foldl_name (usages : List String) :
    ∀ (defs : List (String × DefInfo)) (acc : List DeadCodeItem) (it : DeadCodeItem),
      it ∈ defs.foldl (fun acc kv =>
        if kv.2.name ∉ usages then
          if kv.2.name ∉ entry_point_names then
            acc ++ [⟨kv.2.file, kv.2.line, "potentially_unused_" ++ kv.2.kind.str, kv.2.name,
              "Potentially unused " ++ kv.2.kind.str ++ ": " ++ kv.2.name, "low"⟩]
          else acc
        else acc) acc →
      it ∈ acc ∨ it.name ∉ entry_point_names := by
  intro defs
  induction defs with
  | nil =>
      intro acc it h
      exact Or.inl h
  | cons kv rest ih =>
      intro acc it h
      rw [List.foldl_cons] at h
      rcases ih _ it h with hacc | hname
      · by_cases h1 : kv.2.name ∉ usages
        · rw [if_pos h1] at hacc
          by_cases h2 : kv.2.name ∉ entry_point_names
          · rw [if_pos h2] at hacc
            rcases List.mem_append.mp hacc with ha | hb
            · exact Or.inl ha
            · have := List.mem_singleton.mp hb
              subst this
              exact Or.inr h2
          · rw [if_neg h2] at hacc
            exact Or.inl hacc
        · rw [if_neg h1] at hacc
          exact Or.inl hacc
      · exact Or.inr hname

lemma def_flags_name (defs : List (String × DefInfo)) (usages : List String)
    (it : DeadCodeItem) (h : it ∈ def_flags defs usages) : it.name ∉ entry_point_names := by
  unfold def_flags at h
  rcases def_flags_foldl_name usages defs [] it h with habs | hgood
  · cases habs
  · exact hgood

/-- The union of the usage events of all files: the usage set against
which the final definition pass is checked. -/
def global_usages (files : List PyFileModel) : List String :=
  (files.map PyFileModel.usageEvents).flatten

/-- Specification-side rendering of the import-flag accumulation: the
imported names of each file are checked against the usages of that
file together with those of all previously processed files, left to
right. -/
def import_items_spec : List PyFileModel → List String → List DeadCodeItem
  | [], _ => []
  | f :: fs, usages =>
      import_flags_file f.path f.importEvents (usages ++ f.usageEvents) ++
        import_items_spec fs (usages ++ f.usageEvents)

lemma dead_scan_decomp :
    ∀ (files : List PyFileModel) (defs : List (String × DefInfo)) (usages : List String)
      (items : List DeadCodeItem),
      dead_scan files defs usages items =
        (files.foldl (fun acc f => collect_defs f.path f.defEvents acc) defs,
         usages ++ global_usages files,
         items ++ import_items_spec files usages) := by
  intro files
  induction files with
  | nil =>
      intro defs usages items
      simp [dead_scan, global_usages, import_items_spec]
  | cons f fs ih =>
      intro defs usages items
      rw [dead_scan, ih]
      simp [global_usages, import_items_spec, List.append_assoc]

lemma import_items_spec_type :
    ∀ (files : List PyFileModel) (usages : List String) (it : DeadCodeItem),
      it ∈ import_items_spec files usages → it.itemType = "unused_import" := by
  intro files
  induction files with
  | nil =>
      intro usages it h
      cases h
  | cons f fs ih =>
      intro usages it h
      rcases List.mem_append.mp h with h1 | h2
      · exact import_flags_item_type _ _ _ _ h1
      · exact ih _ it h2

lemma def_flags_foldl_unused (usages : List String) :
    ∀ (defs : List (String × DefInfo)) (acc : List DeadCodeItem) (it : DeadCodeItem),
      it ∈ defs.foldl (fun acc kv =>
        if kv.2.name ∉ usages then
          if kv.2.name ∉ entry_point_names then
            acc ++ [⟨kv.2.file, kv.2.line, "potentially_unused_" ++ kv.2.kind.str, kv.2.name,
              "Potentially unused " ++ kv.2.kind.str ++ ": " ++ kv.2.name, "low"⟩]
          else acc
        else acc) acc →
      it ∈ acc ∨ it.name ∉ usages := by
  intro defs
  induction defs with
  | nil =>
      intro acc it h
      exact Or.inl h
  | cons kv rest ih =>
      intro acc it h
      rw [List.foldl_cons] at h
      rcases ih _ it h with hacc | hname
      · by_cases h1 : kv.2.name ∉ usages
        · rw [if_pos h1] at hacc
          by_cases h2 : kv.2.name ∉ entry_point_names
          · rw [if_pos h2] at hacc
            rcases List.mem_append.mp hacc with ha | hb
            · exact Or.inl ha
            · have := List.mem_singleton.mp hb
              subst this
              exact Or.inr h1
          · rw [if_neg h2] at hacc
            exact Or.inl hacc
        · rw [if_neg h1] at hacc
          exact Or.inl hacc
      · exact Or.inr hname

/-- C2 amended: the dead-code usage set is accumulated globally across
files in iteration order, not per file.  The first conjunct characterizes
the whole run for every input: the output consists of the import flags of
each file checked against the usages of that file plus all previously
processed files, followed by the definition flags checked against the
union of the usages of all files, truncated to 100.  The second conjunct
states the resulting soundness property directly: a flagged definition is
unused in every file and its name is never in the entry-point allow-list
`main/setup/teardown/run`.  The concrete conjuncts exhibit the
cross-file suppression and the asymmetry of the import pass (an earlier
usage suppresses an import flag; a later one does not retract it). -/
theorem C2_theorem :
    (∀ files : List PyFileModel,
      detect_dead_code files =
        (import_items_spec files [] ++
          def_flags (files.foldl (fun acc f => collect_defs f.path f.defEvents acc) [])
            (global_usages files)).take 100) ∧
    (∀ (files : List PyFileModel) (it : DeadCodeItem),
      it ∈ detect_dead_code files → it.itemType ≠ "unused_import" →
      it.name ∉ entry_point_names ∧ ∀ f ∈ files, it.name ∉ f.usageEvents) ∧
    detect_dead_code [fileDefFoo] =
      [⟨"a.py", 1, "potentially_unused_function", "foo",
        "Potentially unused function: foo", "low"⟩] ∧
    detect_dead_code [fileDefFoo, fileUseFoo] = [] ∧
    detect_dead_code [fileImportOs, fileUseOs] =
      [⟨"c.py", 1, "unused_import", "os", "Unused import: os", "low"⟩] ∧
    detect_dead_code [fileUseOs, fileImportOs] = [] := by
  have hstruct : ∀ files : List PyFileModel,
      detect_dead_code files =
        (import_items_spec files [] ++
          def_flags (files.foldl (fun acc f => collect_defs f.path f.defEvents acc) [])
            (global_usages files)).take 100 := by
    intro files
    unfold detect_dead_code
    rw [dead_scan_decomp files [] [] []]
    simp
  refine ⟨hstruct, ?_, by decide, by decide, by decide, by decide⟩
  intro files it hmem htype
  rw [hstruct files] at hmem
  have hmem2 := List.mem_of_mem_take hmem
  rcases List.mem_append.mp hmem2 with himp | hdef
  · exact absurd (import_items_spec_type files [] it himp) htype
  · unfold def_flags at hdef
    have hname : it.name ∉ entry_point_names := by
      rcases def_flags_foldl_name (global_usages files) _ [] it hdef with habs | hgood
      · cases habs
      · exact hgood
    have hunused : it.name ∉ global_usages files := by
      rcases def_flags_foldl_unused (global_usages files) _ [] it hdef with habs | hgood
      · cases habs
      · exact hgood
    refine ⟨hname, ?_⟩
    intro f hf hin
    apply hunused
    unfold global_usages
    rw [List.mem_flatten]
    exact ⟨f.usageEvents, List.mem_map_of_mem PyFileModel.usageEvents hf, hin⟩

/-- C2 witness: the universal soundness conclusion of the amended theorem
applied to the concrete single-file run that flags `foo`: the flagged
name is outside the allow-list and unused in the file. -/
theorem C2_witness :
    (⟨"a.py", 1, "potentially_unused_function", "foo",
      "Potentially unused function: foo", "low"⟩ : DeadCodeItem) ∈
        detect_dead_code [fileDefFoo] ∧
    "foo" ∉ entry_point_names ∧
    "foo" ∉ fileDefFoo.usageEvents :=
  ⟨by decide,
   (C2_theorem.2.1 [fileDefFoo]
     ⟨"a.py", 1, "potentially_unused_function", "foo",
       "Potentially unused function: foo", "low"⟩ (by decide) (by decide)).1,
   (C2_theorem.2.1 [fileDefFoo]
     ⟨"a.py", 1, "potentially_unused_function", "foo",
       "Potentially unused function: foo", "low"⟩ (by decide) (by decide)).2
     fileDefFoo (by decide)⟩

/-! ## Section 7: hash-based duplicate detection
(`_detect_duplicates_with_hashing`, lines 1047-1103)

The fallback detector slides a 5-line window over each file, joins the raw
lines (as read by `readlines`, i.e. including newline characters),
normalizes whitespace with `' '.join(block.split())`, skips blocks whose
normalized text is shorter than 50 characters, hashes the rest with a
DJB2-style hash masked to 32 bits, and reports a pair when a bucket
already holds an entry from a different file or from the same file more
than 5 lines away. -/

/-- Python `str.split()` (split on whitespace runs, no empty words). -/
def py_words_aux : List Char → List Char → List String
  | [], cur => if cur.isEmpty then [] else [String.mk cur.reverse]
  | c :: rest, cur =>
      if c.isWhitespace then
        if cur.isEmpty then py_words_aux rest []
        else String.mk cur.reverse :: py_words_aux rest []
      else py_words_aux rest (c :: cur)

def py_split_ws (s : String) : List String := py_words_aux s.toList []

/-- Line 1071: `' '.join(block.split())`. -/
def normalize_block (s : String) : String := String.intercalate " " (py_split_ws s)

/-- Lines 1052-1057: DJB2-style hash, masked to 32 bits after the fold
(Python integers are unbounded until the final `& 0xFFFFFFFF`). -/
def simple_hash (s : String) : Nat :=
  (s.toList.foldl (fun h c => ((h <<< 5) + h) + c.toNat) 5381) % 4294967296

/-- A bucket entry `{'file': ..., 'line': ...}` (lines 1095-1098). -/
structure HashEntry where
  file : String
  line : Nat
deriving DecidableEq, Repr

/-- A reported similarity pair (lines 1083-1090). -/
structure DupItem where
  file : String
  line : Nat
  similarTo : String
  similarLine : Nat
  message : String
  source : String
deriving DecidableEq, Repr

/-- The `block_hashes` dict, hash value to list of entries. -/
abbrev HashTable := List (Nat × List HashEntry)

/-- Python dict update `block_hashes[h].append(e)` together with the
`block_hashes[h] = []` initialization of the else-branch (lines 1092-1098). -/
def table_append (t : HashTable) (k : Nat) (e : HashEntry) : HashTable :=
  if (t.lookup k).isSome then
    t.map (fun kv => if kv.1 = k then (kv.1, kv.2 ++ [e]) else kv)
  else t ++ [(k, [e])]

/-- The reporting condition of line 1082:
`existing['file'] != relative_path or abs(existing['line'] - (i+1)) > block_size`. -/
def is_eligible (path : String) (line : Nat) (e : HashEntry) : Bool :=
  decide (e.file ≠ path ∨ 5 < ((e.line : Int) - (line : Int)).natAbs)

/-- The `for existing in block_hashes[h]: ... break` loop (lines 1081-1091)
reports the first eligible entry, if any. -/
def find_first_eligible (entries : List HashEntry) (path : String) (line : Nat) :
    Option HashEntry :=
  entries.find? (is_eligible path line)

/-- Line 1069: `''.join(lines[i:i+block_size])`. -/
def window_block (lines : List String) (i : Nat) : String :=
  String.join ((lines.drop i).take 5)

/-- Body of the window loop for one index `i` (lines 1068-1098). -/
def process_index (path : String) (lines : List String)
    (st : HashTable × List DupItem) (i : Nat) : HashTable × List DupItem :=
  let normalized := normalize_block (window_block lines i)
  if normalized.length < 50 then st
  else
    let h := simple_hash normalized
    let newDups :=
      match st.1.lookup h with
      | none => st.2
      | some entries =>
          match find_first_eligible entries path (i + 1) with
          | some existing =>
              st.2 ++ [⟨path, i + 1, existing.file, existing.line,
                "Similar code block (5 lines)", "hash_detection"⟩]
          | none => st.2
    (table_append st.1 h ⟨path, i + 1⟩, newDups)

/-- The window loop over one file: `for i in range(len(lines) - 5 + 1)`
(line 1068); `List.range (len + 1 - 5)` matches the empty Python range
for files shorter than 5 lines. -/
def process_file (st : HashTable × List DupItem) (f : String × List String) :
    HashTable × List DupItem :=
  (List.range (f.2.length + 1 - 5)).foldl (process_index f.1 f.2) st

/-- `_detect_duplicates_with_hashing` (lines 1047-1103), result truncated
to 50 pairs (line 1103). -/
def detect_duplicates_with_hashing (files : List (String × List String)) : List DupItem :=
  (files.foldl process_file ([], [])).2.take 50

/-- Six distinct long lines (each 5-line window normalizes to well over 50
characters). -/
def sixLines : List String :=
  ["line_one_aaaaaaaaaaaaaaaaaaaaaaaa\n",
   "line_two_bbbbbbbbbbbbbbbbbbbbbbbb\n",
   "line_three_cccccccccccccccccccccc\n",
   "line_four_dddddddddddddddddddddddd\n",
   "line_five_eeeeeeeeeeeeeeeeeeeeeeee\n",
   "line_six_ffffffffffffffffffffffffff\n"]

/-- Two files containing the identical 6-line block `sixLines`. -/
def dupFiles6 : List (String × List String) := [("f1.py", sixLines), ("f2.py", sixLines)]

def sharedThree : List String :=
  ["shared_one_ssssssssssssssssssssss\n",
   "shared_two_tttttttttttttttttttttt\n",
   "shared_three_uuuuuuuuuuuuuuuuuuuu\n"]

def fileSeven1 : List String :=
  ["unique_a1_xxxxxxxxxxxxxxxxxxxxxxx\n",
   "unique_a2_yyyyyyyyyyyyyyyyyyyyyyy\n",
   "unique_a3_zzzzzzzzzzzzzzzzzzzzzzz\n",
   "unique_a4_wwwwwwwwwwwwwwwwwwwwwww\n"] ++ sharedThree

def fileSeven2 : List String :=
  ["unique_b1_ppppppppppppppppppppppp\n",
   "unique_b2_qqqqqqqqqqqqqqqqqqqqqqq\n",
   "unique_b3_rrrrrrrrrrrrrrrrrrrrrrr\n",
   "unique_b4_sssssssssssssssssssssss\n"] ++ sharedThree

/-- Two files sharing only the identical 3-line block `sharedThree`. -/
def dupFiles3 : List (String × List String) := [("g1.py", fileSeven1), ("g2.py", fileSeven2)]

/-- C4 counterexample: two files consisting of one identical 6-line block
whose normalized text is 59 characters (at least 50), yet no similarity
pair is reported, because every contained 5-line window normalizes to only
49 characters and is skipped by the per-window length threshold.  The
50-character threshold applies to each 5-line window, not to the 6-line
block. -/
theorem C4_counterexample :
    50 ≤ (normalize_block (String.join (List.replicate 6 "aaaaaaaaa\n"))).length ∧
    detect_duplicates_with_hashing
      [("f1.py", List.replicate 6 "aaaaaaaaa\n"),
       ("f2.py", List.replicate 6 "aaaaaaaaa\n")] = [] := by
  constructor
  · decide
  · decide

/-- A reported line refers to an actual 5-line window of the named file
whose normalized text has at least 50 characters and hashes to `h`. -/
def window_prop (files : List (String × List String)) (f : String) (l : Nat) (h : Nat) : Prop :=
  ∃ lines, files.lookup f = some lines ∧ 1 ≤ l ∧ l + 4 ≤ lines.length ∧
    50 ≤ (normalize_block (window_block lines (l - 1))).length ∧
    simple_hash (normalize_block (window_block lines (l - 1))) = h

/-- Soundness property of one reported pair: both sides are real windows
of at least 50 normalized characters with equal hashes, and the two
blocks are in different files or more than 5 lines apart. -/
def dup_prop (files : List (String × List String)) (d : DupItem) : Prop :=
  ∃ h, window_prop files d.file d.line h ∧ window_prop files d.similarTo d.similarLine h ∧
    (d.similarTo ≠ d.file ∨ 5 < ((d.similarLine : Int) - (d.line : Int)).natAbs)

def table_inv (files : List (String × List String)) (t : HashTable) : Prop :=
  ∀ kv ∈ t, ∀ e ∈ kv.2, window_prop files e.file e.line kv.1

lemma lookup_mem_pairs {β : Type} :
    ∀ (t : List (Nat × β)) (k : Nat) (v : β), t.lookup k = some v → (k, v) ∈ t := by
  intro t
  induction t with
  | nil => intro k v h; exact Option.noConfusion h
  | cons kv rest ih =>
      obtain ⟨k1, v1⟩ := kv
      intro k v h
      rw [List.lookup_cons] at h
      by_cases hk : k = k1
      · subst hk
        rw [beq_self_eq_true] at h
        injection h with h2
        subst h2
        exact List.mem_cons_self _ _
      · rw [beq_eq_false_iff_ne.mpr hk] at h
        exact List.mem_cons_of_mem _ (ih k v h)

lemma foldl_preserve {α σ : Type} (P : σ → Prop) (step : σ → α → σ) :
    ∀ (l : List α), (∀ s a, a ∈ l → P s → P (step s a)) → ∀ s, P s → P (l.foldl step s) := by
  intro l
  induction l with
  | nil => intro _ s hs; exact hs
  | cons a rest ih =>
      intro hstep s hs
      rw [List.foldl_cons]
      exact ih (fun s b hb hsb => hstep s b (List.mem_cons_of_mem a hb) hsb) _
        (hstep s a (List.mem_cons_self a rest) hs)

lemma table_append_inv {files : List (String × List String)} {t : HashTable} {k : Nat}
    {e : HashEntry} (ht : table_inv files t) (he : window_prop files e.file e.line k) :
    table_inv files (table_append t k e) := by
  unfold table_append
  by_cases hs : (t.lookup k).isSome
  · rw [if_pos hs]
    intro kv hkv e2 he2
    rcases List.mem_map.mp hkv with ⟨kv0, hkv0, hkveq⟩
    by_cases hkk : kv0.1 = k
    · rw [if_pos hkk] at hkveq
      subst hkveq
      dsimp only at he2 ⊢
      rcases List.mem_append.mp he2 with hold | hnew
      · exact ht kv0 hkv0 e2 hold
      · have := List.mem_singleton.mp hnew
        subst this
        rw [hkk]
        exact he
    · rw [if_neg hkk] at hkveq
      subst hkveq
      exact ht kv0 hkv0 e2 he2
  · rw [if_neg hs]
    intro kv hkv e2 he2
    rcases List.mem_append.mp hkv with hold | hnew
    · exact ht kv hold e2 he2
    · have := List.mem_singleton.mp hnew
      subst this
      have := List.mem_singleton.mp he2
      subst this
      exact he

lemma process_index_inv {files : List (String × List String)} {path : String}
    {lines : List String} (hf : files.lookup path = some lines)
    {st : HashTable × List DupItem}
    (hinv : table_inv files st.1 ∧ ∀ d ∈ st.2, dup_prop files d)
    {i : Nat} (hi : i + 5 ≤ lines.length) :
    table_inv files (process_index path lines st i).1 ∧
      ∀ d ∈ (process_index path lines st i).2, dup_prop files d := by
  rcases hinv with ⟨ht, hd⟩
  unfold process_index
  by_cases hlen : (normalize_block (window_block lines i)).length < 50
  · rw [if_pos hlen]
    exact ⟨ht, hd⟩
  · rw [if_neg hlen]
    dsimp only
    have hsub : i + 1 - 1 = i := by omega
    have hwp : window_prop files path (i + 1)
        (simple_hash (normalize_block (window_block lines i))) := by
      refine ⟨lines, hf, by omega, by omega, ?_, ?_⟩
      · rw [hsub]
        omega
      · rw [hsub]
    constructor
    · exact table_append_inv ht hwp
    · cases hlook : st.1.lookup (simple_hash (normalize_block (window_block lines i))) with
      | none =>
          simp only [hlook]
          exact hd
      | some entries =>
          cases hfind : find_first_eligible entries path (i + 1) with
          | none =>
              simp only [hlook, hfind]
              exact hd
          | some existing =>
              simp only [hlook, hfind]
              intro d hd2
              rcases List.mem_append.mp hd2 with hin | hnew
              · exact hd d hin
              · have := List.mem_singleton.mp hnew
                subst this
                have hmem : existing ∈ entries := List.mem_of_find?_eq_some hfind
                have hel : is_eligible path (i + 1) existing = true := List.find?_some hfind
                have hkv : ((simple_hash (normalize_block (window_block lines i))), entries)
                    ∈ st.1 := lookup_mem_pairs _ _ _ hlook
                have hent : window_prop files existing.file existing.line
                    (simple_hash (normalize_block (window_block lines i))) :=
                  ht _ hkv existing hmem
                refine ⟨simple_hash (normalize_block (window_block lines i)), hwp, hent, ?_⟩
                simpa [is_eligible, decide_eq_true_eq] using hel

lemma nodup_lookup_pairs :
    ∀ (files : List (String × List String)), (files.map Prod.fst).Nodup →
      ∀ pr ∈ files, files.lookup pr.1 = some pr.2 := by
  intro files
  induction files with
  | nil => intro _ pr h; cases h
  | cons f fs ih =>
      obtain ⟨k, v⟩ := f
      intro hnd pr hpr
      rw [List.map_cons, List.nodup_cons] at hnd
      rcases hnd with ⟨hknot, hfs⟩
      rcases List.mem_cons.mp hpr with rfl | hpr2
      · rw [List.lookup_cons, beq_self_eq_true]
      · rw [List.lookup_cons]
        have hne : pr.1 ≠ k := by
          intro he
          have hmem : pr.1 ∈ fs.map Prod.fst := List.mem_map_of_mem Prod.fst hpr2
          rw [he] at hmem
          exact hknot hmem
        rw [beq_eq_false_iff_ne.mpr hne]
        exact ih hfs pr hpr2

/-- C4 amended: every reported similarity pair comes from two hash-equal
5-line windows, each of normalized length at least 50 (a window below 50
normalized characters is never reported), located in different files or
more than 5 lines apart in the same file; two files containing an
identical 6-line block all of whose 5-line windows normalize to at least
50 characters yield reported pairs, while two files sharing only a 3-line
identical block yield none. -/
theorem C4_theorem :
    (∀ (files : List (String × List String)), (files.map Prod.fst).Nodup →
      ∀ d ∈ detect_duplicates_with_hashing files, dup_prop files d) ∧
    detect_duplicates_with_hashing dupFiles6 =
      [⟨"f2.py", 1, "f1.py", 1, "Similar code block (5 lines)", "hash_detection"⟩,
       ⟨"f2.py", 2, "f1.py", 2, "Similar code block (5 lines)", "hash_detection"⟩] ∧
    detect_duplicates_with_hashing dupFiles3 = [] := by
  refine ⟨?_, by decide, by decide⟩
  intro files hnd d hd
  unfold detect_duplicates_with_hashing at hd
  have hd2 := List.mem_of_mem_take hd
  have hmain : table_inv files (files.foldl process_file ([], [])).1 ∧
      ∀ d ∈ (files.foldl process_file ([], [])).2, dup_prop files d := by
    refine foldl_preserve
      (fun st => table_inv files st.1 ∧ ∀ d ∈ st.2, dup_prop files d)
      process_file files ?_ ([], []) ⟨?_, ?_⟩
    · intro st f hf hst
      unfold process_file
      have hif : files.lookup f.1 = some f.2 := nodup_lookup_pairs files hnd f hf
      exact foldl_preserve
        (fun st => table_inv files st.1 ∧ ∀ d ∈ st.2, dup_prop files d)
        (process_index f.1 f.2) (List.range (f.2.length + 1 - 5))
        (fun s i hi hs => process_index_inv hif hs
          (by have := List.mem_range.mp hi; omega)) st hst
    · intro kv h
      cases h
    · intro d2 h
      cases h
  exact hmain.2 d hd2

/-- C4 witness: the soundness conclusion applied to the concrete two-file
input `dupFiles6` and its first reported pair. -/
theorem C4_witness :
    ((dupFiles6.map Prod.fst).Nodup) ∧
    dup_prop dupFiles6
      ⟨"f2.py", 1, "f1.py", 1, "Similar code block (5 lines)", "hash_detection"⟩ :=
  ⟨by decide, C4_theorem.1 dupFiles6 (by decide)
    ⟨"f2.py", 1, "f1.py", 1, "Similar code block (5 lines)", "hash_detection"⟩ (by decide)⟩

/-! ## Section 8: import cycle detection
(`_detect_circular_dependencies`, lines 749-788)

The detector runs a DFS with a global `visited` set and a `rec_stack`
set.  When the DFS reaches a module already on `rec_stack` it calls
`path.index(module)` on its local `path` and returns the cycle suffix;
note that the early `return cycle` paths skip `rec_stack.remove(module)`,
so `rec_stack` keeps stale entries after a cycle is found.  The embedding
is fuel-indexed: `graph length + 1` fuel always suffices because every
recursion level inserts a fresh module into `visited`. -/

abbrev ImportGraph := List (String × List String)

/-- Python `import_graph.get(module, [])`. -/
def lookup_imports (g : ImportGraph) (m : String) : List String :=
  (g.lookup m).getD []

structure DfsState where
  visited : List String
  recStack : List String
deriving DecidableEq, Repr

inductive DfsErr where
  | valueError
  | outOfFuel
deriving DecidableEq, Repr

/-- Python `path.index(module)` (line 758): first index, `none` models the
`ValueError` raised when the element is absent. -/
def first_index : List String → String → Option Nat
  | [], _ => none
  | a :: rest, x => if a = x then some 0 else (first_index rest x).map (· + 1)

abbrev DfsResult := Except DfsErr (Option (List String) × DfsState)

/-- The `for imported in import_graph.get(module, [])` loop
(lines 768-773): follow an edge only when the target is a key of the
graph; a truthy (nonempty) cycle from the nested call returns
immediately, an empty or absent cycle continues the loop with the updated
mutable state. -/
def dfs_imports (g : ImportGraph) (recur : String → List String → DfsState → DfsResult) :
    List String → List String → DfsState → DfsResult
  | [], _, st => .ok (none, st)
  | imp :: rest, path, st =>
      if (g.lookup imp).isSome then
        match recur imp path st with
        | .error e => .error e
        | .ok (some (c :: cs), st2) => .ok (some (c :: cs), st2)
        | .ok (some [], st2) => dfs_imports g recur rest path st2
        | .ok (none, st2) => dfs_imports g recur rest path st2
      else dfs_imports g recur rest path st

/-- The recursive `dfs` closure (lines 755-776).  On entry: a module on
`rec_stack` triggers the `path.index` cycle return; a visited module
returns `None`; otherwise the module is added to `visited` and
`rec_stack`, appended to the path copy handed to the nested calls, and
`rec_stack.remove(module)` runs only when no cycle was propagated. -/
def dfs (g : ImportGraph) : Nat → String → List String → DfsState → DfsResult
  | 0, _, _, _ => .error .outOfFuel
  | fuel + 1, module, path, st =>
      if module ∈ st.recStack then
        match first_index path module with
        | none => .error .valueError
        | some cycleStart => .ok (some (path.drop cycleStart), st)
      else if module ∈ st.visited then
        .ok (none, st)
      else
        match dfs_imports g (fun imp p s => dfs g fuel imp p s)
            (lookup_imports g module) (path ++ [module])
            ⟨module :: st.visited, module :: st.recStack⟩ with
        | .error e => .error e
        | .ok (some c, st2) => .ok (some c, st2)
        | .ok (none, st2) => .ok (none, ⟨st2.visited, st2.recStack.erase module⟩)

/-- A reported circular dependency (lines 782-786). -/
structure CircularDep where
  cycle : List String
  message : String
  severity : String
deriving DecidableEq, Repr

def circular_dep_record (c : String) (cs : List String) : CircularDep :=
  { cycle := c :: cs,
    message := "Circular dependency: " ++ String.intercalate " → " (c :: cs) ++ " → " ++ c,
    severity := "high" }

/-- The root loop `for module in import_graph` (lines 778-787); a truthy
cycle appends one record. -/
def detect_loop (g : ImportGraph) : List String → DfsState → List CircularDep →
    Except DfsErr (List CircularDep)
  | [], _, acc => .ok acc
  | m :: ms, st, acc =>
      if m ∈ st.visited then detect_loop g ms st acc
      else
        match dfs g (g.length + 1) m [] st with
        | .error e => .error e
        | .ok (some (c :: cs), st2) => detect_loop g ms st2 (acc ++ [circular_dep_record c cs])
        | .ok (some [], st2) => detect_loop g ms st2 acc
        | .ok (none, st2) => detect_loop g ms st2 acc

/-- `_detect_circular_dependencies` (lines 749-788). -/
def detect_circular_dependencies (g : ImportGraph) : Except DfsErr (List CircularDep) :=
  detect_loop g (g.map Prod.fst) ⟨[], []⟩ []

/-- The graph `A -> B -> A` plus `D -> B`: the DFS from `A` finds the
cycle and returns early, leaving `A` and `B` on `rec_stack`; the later
DFS from root `D` reaches `B`, finds it on `rec_stack`, and
`path.index("B")` on the path `["D"]` raises `ValueError`. -/
def crashGraph : ImportGraph := [("A", ["B"]), ("B", ["A"]), ("D", ["B"])]

/-- C10: the cycle detector does not return normally on every import
graph.  On `crashGraph` the stale recursion-stack entries left by the
early cycle return make the `path.index` lookup fail, so
`_detect_circular_dependencies` raises `ValueError` instead of returning
a cycle list. -/
theorem C10_theorem :
    detect_circular_dependencies crashGraph = Except.error DfsErr.valueError := by
  rfl

/-- The synthetic three-module cycle of the specification. -/
def cycleGraphABC : ImportGraph := [("A", ["B"]), ("B", ["C"]), ("C", ["A"])]

/-- Decidable check used for the concrete part of C3: the run returns
exactly one cycle whose module set is `{A, B, C}`. -/
def one_cycle_ABC (g : ImportGraph) : Bool :=
  match detect_circular_dependencies g with
  | .ok [c] => decide (c.cycle.toFinset = ({"A", "B", "C"} : Finset String))
  | _ => false

lemma one_cycle_ABC_sound (g : ImportGraph) (h : one_cycle_ABC g = true) :
    ∃ c, detect_circular_dependencies g = .ok [c] ∧
      c.cycle.toFinset = ({"A", "B", "C"} : Finset String) := by
  unfold one_cycle_ABC at h
  split at h
  · next c heq => exact ⟨c, heq, of_decide_eq_true h⟩
  · exact absurd h (by simp)

/-- The edge relation actually followed by the DFS: `b` is among the
declared imports of `a` and is itself a key of the graph (line 770). -/
def EdgeOf (g : ImportGraph) (a b : String) : Prop :=
  b ∈ lookup_imports g a ∧ (g.lookup b).isSome = true

/-- A cycle-free import graph: no module reaches itself through one or
more internal edges. -/
def Acyclic (g : ImportGraph) : Prop :=
  ∀ m, ¬ Relation.TransGen (EdgeOf g) m m

lemma chain_cons_transGen {R : String → String → Prop} :
    ∀ (l : List String) (a b : String), List.Chain' R (a :: (l ++ [b])) →
      Relation.TransGen R a b := by
  intro l
  induction l with
  | nil =>
      intro a b h
      rw [List.nil_append] at h
      exact Relation.TransGen.single (List.chain'_cons.mp h).1
  | cons c rest ih =>
      intro a b h
      rw [List.cons_append] at h
      have h2 := List.chain'_cons.mp h
      exact Relation.TransGen.head h2.1 (ih c b h2.2)

lemma chain_mem_transGen {R : String → String → Prop} (path : List String) (m : String)
    (hc : List.Chain' R (path ++ [m])) (hm : m ∈ path) : Relation.TransGen R m m := by
  obtain ⟨p1, p2, rfl⟩ := List.append_of_mem hm
  have hre : (p1 ++ m :: p2) ++ [m] = p1 ++ (m :: (p2 ++ [m])) := by
    simp [List.append_assoc]
  rw [hre] at hc
  have hc2 : List.Chain' R (m :: (p2 ++ [m])) := (List.chain'_append.mp hc).2.1
  exact chain_cons_transGen p2 m m hc2

/-- Number of graph keys not yet visited; bounds the remaining DFS
nesting depth. -/
def unvisited_count (g : ImportGraph) (visited : List String) : Nat :=
  ((g.map Prod.fst).filter (fun k => decide (k ∉ visited))).length

lemma unvisited_le_length (g : ImportGraph) (v : List String) :
    unvisited_count g v ≤ g.length := by
  unfold unvisited_count
  calc ((g.map Prod.fst).filter (fun k => decide (k ∉ v))).length
      ≤ (g.map Prod.fst).length := List.length_filter_le _ _
    _ = g.length := List.length_map _ _

lemma filter_imp_length {α : Type} {p q : α → Bool} (himp : ∀ a, p a = true → q a = true) :
    ∀ l : List α, (l.filter p).length ≤ (l.filter q).length := by
  intro l
  induction l with
  | nil => simp
  | cons a rest ih =>
      rw [List.filter_cons, List.filter_cons]
      by_cases hp : p a = true
      · rw [if_pos hp, if_pos (himp a hp)]
        simpa using ih
      · rw [if_neg hp]
        by_cases hq : q a = true
        · rw [if_pos hq]
          exact le_trans ih (by simp)
        · rw [if_neg hq]
          exact ih

lemma unvisited_anti (g : ImportGraph) {v v2 : List String}
    (hsub : ∀ x ∈ v, x ∈ v2) : unvisited_count g v2 ≤ unvisited_count g v := by
  unfold unvisited_count
  apply filter_imp_length
  intro a ha
  simp only [decide_eq_true_eq] at ha ⊢
  intro hmem
  exact ha (hsub a hmem)

lemma mem_filter_not_lt :
    ∀ (l : List String) (v : List String) (m : String), m ∈ l → m ∉ v →
      (l.filter (fun k => decide (k ∉ m :: v))).length <
        (l.filter (fun k => decide (k ∉ v))).length := by
  intro l
  induction l with
  | nil => intro v m hm; cases hm
  | cons a rest ih =>
      intro v m hm hnv
      rw [List.filter_cons, List.filter_cons]
      have hmono : ∀ x : String, decide (x ∉ m :: v) = true → decide (x ∉ v) = true := by
        intro x hx
        simp only [decide_eq_true_eq, List.mem_cons] at hx ⊢
        intro hmem
        exact hx (Or.inr hmem)
      by_cases ham : a = m
      · subst ham
        rw [if_neg (by simp), if_pos (by simpa using hnv)]
        exact Nat.lt_succ_of_le (filter_imp_length hmono rest)
      · have hmr : m ∈ rest := by
          rcases List.mem_cons.mp hm with h | h
          · exact absurd h.symm ham
          · exact h
        by_cases hav : a ∈ v
        · rw [if_neg (by simp [hav]), if_neg (by simp [hav])]
          exact ih v m hmr hnv
        · rw [if_pos (by simp [hav, ham]), if_pos (by simp [hav])]
          exact Nat.succ_lt_succ (ih v m hmr hnv)

lemma lookup_isSome_mem_keys :
    ∀ (g : ImportGraph) (m : String), (g.lookup m).isSome = true → m ∈ g.map Prod.fst := by
  intro g
  induction g with
  | nil => intro m h; simp [List.lookup] at h
  | cons kv rest ih =>
      obtain ⟨k, v⟩ := kv
      intro m h
      rw [List.lookup_cons] at h
      by_cases hk : m = k
      · subst hk
        exact List.mem_cons_self _ _
      · rw [beq_eq_false_iff_ne.mpr hk] at h
        exact List.mem_cons_of_mem _ (ih m h)

lemma keys_lookup_isSome :
    ∀ (g : ImportGraph) (m : String), m ∈ g.map Prod.fst → (g.lookup m).isSome = true := by
  intro g
  induction g with
  | nil => intro m h; cases h
  | cons kv rest ih =>
      obtain ⟨k, v⟩ := kv
      intro m h
      rw [List.lookup_cons]
      by_cases hk : m = k
      · subst hk
        rw [beq_self_eq_true]
        rfl
      · rw [beq_eq_false_iff_ne.mpr hk]
        rcases List.mem_cons.mp h with h1 | h1
        · exact absurd h1 hk
        · exact ih m h1

lemma unvisited_insert_lt (g : ImportGraph) {v : List String} {m : String}
    (hkey : (g.lookup m).isSome = true) (hnv : m ∉ v) :
    unvisited_count g (m :: v) < unvisited_count g v :=
  mem_filter_not_lt (g.map Prod.fst) v m (lookup_isSome_mem_keys g m hkey) hnv

lemma dfs_imports_ok (g : ImportGraph) (fuel : Nat)
    (recur : String → List String → DfsState → DfsResult)
    (hrecur : ∀ imp p s, (g.lookup imp).isSome = true →
      List.Chain' (EdgeOf g) (p ++ [imp]) →
      (∀ x, x ∈ s.recStack ↔ x ∈ p) →
      unvisited_count g s.visited < fuel →
      ∃ vis2, recur imp p s = .ok (none, ⟨vis2, s.recStack⟩) ∧ ∀ x ∈ s.visited, x ∈ vis2)
    (module : String) :
    ∀ (imps : List String) (path : List String) (st : DfsState),
      (∀ i ∈ imps, i ∈ lookup_imports g module) →
      path.getLast? = some module →
      List.Chain' (EdgeOf g) path →
      (∀ x, x ∈ st.recStack ↔ x ∈ path) →
      unvisited_count g st.visited < fuel →
      ∃ vis2, dfs_imports g recur imps path st = .ok (none, ⟨vis2, st.recStack⟩) ∧
        ∀ x ∈ st.visited, x ∈ vis2 := by
  intro imps
  induction imps with
  | nil =>
      intro path st _ _ _ _ _
      exact ⟨st.visited, rfl, fun x hx => hx⟩
  | cons imp rest ih =>
      intro path st himps hlast hchain hrs hfuel
      rw [dfs_imports]
      by_cases hkey : (g.lookup imp).isSome = true
      · rw [if_pos hkey]
        have hchain2 : List.Chain' (EdgeOf g) (path ++ [imp]) := by
          rw [List.chain'_append]
          refine ⟨hchain, List.chain'_singleton _, ?_⟩
          intro x hx y hy
          rw [hlast] at hx
          simp only [Option.mem_def, Option.some.injEq] at hx
          simp only [List.head?_cons, Option.mem_def, Option.some.injEq] at hy
          subst hx
          subst hy
          exact ⟨himps imp (List.mem_cons_self _ _), hkey⟩
        obtain ⟨vis2, heq, hmono⟩ := hrecur imp path st hkey hchain2 hrs hfuel
        rw [heq]
        have hfuel2 : unvisited_count g vis2 < fuel :=
          lt_of_le_of_lt (unvisited_anti g hmono) hfuel
        obtain ⟨vis3, heq3, hmono3⟩ := ih path ⟨vis2, st.recStack⟩
          (fun i hi => himps i (List.mem_cons_of_mem _ hi)) hlast hchain
          (fun x => hrs x) hfuel2
        exact ⟨vis3, heq3, fun x hx => hmono3 x (hmono x hx)⟩
      · rw [if_neg hkey]
        exact ih path st (fun i hi => himps i (List.mem_cons_of_mem _ hi))
          hlast hchain hrs hfuel

lemma dfs_acyclic_none (g : ImportGraph) (hacyc : Acyclic g) :
    ∀ (fuel : Nat) (module : String) (path : List String) (st : DfsState),
      (g.lookup module).isSome = true →
      List.Chain' (EdgeOf g) (path ++ [module]) →
      (∀ x, x ∈ st.recStack ↔ x ∈ path) →
      unvisited_count g st.visited < fuel →
      ∃ vis2, dfs g fuel module path st = .ok (none, ⟨vis2, st.recStack⟩) ∧
        ∀ x ∈ st.visited, x ∈ vis2 := by
  intro fuel
  induction fuel with
  | zero =>
      intro module path st _ _ _ hfuel
      exact absurd hfuel (Nat.not_lt_zero _)
  | succ f ihf =>
      intro module path st hkey hchain hrs hfuel
      rw [dfs]
      by_cases hin : module ∈ st.recStack
      · exfalso
        exact hacyc module (chain_mem_transGen path module hchain ((hrs module).mp hin))
      · rw [if_neg hin]
        by_cases hvis : module ∈ st.visited
        · rw [if_pos hvis]
          exact ⟨st.visited, rfl, fun x hx => hx⟩
        · rw [if_neg hvis]
          have hfuel1 : unvisited_count g (module :: st.visited) < f := by
            have h1 := unvisited_insert_lt g hkey hvis
            omega
          have hrs1 : ∀ x, x ∈ (⟨module :: st.visited, module :: st.recStack⟩ :
              DfsState).recStack ↔ x ∈ path ++ [module] := by
            intro x
            simp only [List.mem_cons, List.mem_append, List.mem_singleton, hrs x]
            tauto
          obtain ⟨vis2, heq, hmono⟩ := dfs_imports_ok g f
            (fun imp p s => dfs g f imp p s)
            (fun imp p s h1 h2 h3 h4 => ihf imp p s h1 h2 h3 h4)
            module (lookup_imports g module) (path ++ [module])
            ⟨module :: st.visited, module :: st.recStack⟩
            (fun i hi => hi) (List.getLast?_concat _) hchain hrs1 hfuel1
          rw [heq]
          refine ⟨vis2, ?_, fun x hx => hmono x (List.mem_cons_of_mem _ hx)⟩
          dsimp only
          rw [List.erase_cons_head]

lemma detect_loop_acyclic (g : ImportGraph) (hacyc : Acyclic g) :
    ∀ (ms : List String) (st : DfsState) (acc : List CircularDep),
      (∀ m ∈ ms, (g.lookup m).isSome = true) →
      st.recStack = [] →
      detect_loop g ms st acc = .ok acc := by
  intro ms
  induction ms with
  | nil =>
      intro st acc _ _
      rw [detect_loop]
  | cons m rest ih =>
      intro st acc hkeys hrs
      rw [detect_loop]
      by_cases hvis : m ∈ st.visited
      · rw [if_pos hvis]
        exact ih st acc (fun x hx => hkeys x (List.mem_cons_of_mem _ hx)) hrs
      · rw [if_neg hvis]
        have hfuel : unvisited_count g st.visited < g.length + 1 :=
          Nat.lt_succ_of_le (unvisited_le_length g _)
        obtain ⟨vis2, heq, -⟩ := dfs_acyclic_none g hacyc (g.length + 1) m [] st
          (hkeys m (List.mem_cons_self _ _))
          (by rw [List.nil_append]; exact List.chain'_singleton m)
          (by intro x; rw [hrs])
          hfuel
        rw [heq]
        exact ih ⟨vis2, st.recStack⟩ acc
          (fun x hx => hkeys x (List.mem_cons_of_mem _ hx)) hrs

lemma perm_cycleABC_cases (g : ImportGraph) (hperm : g.Perm cycleGraphABC) :
    g = [("A", ["B"]), ("B", ["C"]), ("C", ["A"])] ∨
    g = [("A", ["B"]), ("C", ["A"]), ("B", ["C"])] ∨
    g = [("B", ["C"]), ("A", ["B"]), ("C", ["A"])] ∨
    g = [("B", ["C"]), ("C", ["A"]), ("A", ["B"])] ∨
    g = [("C", ["A"]), ("A", ["B"]), ("B", ["C"])] ∨
    g = [("C", ["A"]), ("B", ["C"]), ("A", ["B"])] := by
  have hlen : g.length = 3 := by
    have h := hperm.length_eq
    simpa [cycleGraphABC] using h
  have hnd : g.Nodup := hperm.nodup_iff.mpr (by decide)
  rcases g with _ | ⟨a, _ | ⟨b, _ | ⟨c, _ | ⟨d, rest⟩⟩⟩⟩ <;> simp only [List.length] at hlen <;>
    try omega
  have ha : a ∈ cycleGraphABC := hperm.mem_iff.mp (by simp)
  have hb : b ∈ cycleGraphABC := hperm.mem_iff.mp (by simp)
  have hc : c ∈ cycleGraphABC := hperm.mem_iff.mp (by simp)
  simp only [cycleGraphABC, List.mem_cons, List.mem_singleton, List.not_mem_nil,
    or_false] at ha hb hc
  rcases ha with rfl | rfl | rfl <;> rcases hb with rfl | rfl | rfl <;>
    rcases hc with rfl | rfl | rfl <;>
      first
        | exact absurd hnd (by decide)
        | decide

/-- C3: for every iteration order of the three-module graph
`A -> B -> C -> A` the detector returns exactly one cycle whose module
set is `{A, B, C}` (so the result, viewed as a set of cycles of module
sets, is independent of the traversal start), and for every cycle-free
graph of imports it returns an empty cycle list without raising. -/
theorem C3_theorem :
    (∀ g : ImportGraph, g.Perm cycleGraphABC →
      ∃ c, detect_circular_dependencies g = .ok [c] ∧
        c.cycle.toFinset = ({"A", "B", "C"} : Finset String)) ∧
    (∀ g : ImportGraph, Acyclic g → detect_circular_dependencies g = .ok []) := by
  constructor
  · intro g hperm
    rcases perm_cycleABC_cases g hperm with rfl | rfl | rfl | rfl | rfl | rfl <;>
      exact one_cycle_ABC_sound _ (by decide)
  · intro g hacyc
    unfold detect_circular_dependencies
    exact detect_loop_acyclic g hacyc (g.map Prod.fst) ⟨[], []⟩ []
      (fun m hm => keys_lookup_isSome g m hm) rfl

lemma acyclic_singleX : Acyclic [("X", [])] := by
  have hedge : ∀ a b : String, ¬ EdgeOf [("X", [])] a b := by
    rintro a b ⟨h1, -⟩
    unfold lookup_imports at h1
    rw [List.lookup_cons] at h1
    by_cases ha : a = "X"
    · subst ha
      rw [beq_self_eq_true] at h1
      simp at h1
    · rw [beq_eq_false_iff_ne.mpr ha] at h1
      simp [List.lookup] at h1
  intro m hm
  cases hm with
  | single h => exact hedge _ _ h
  | tail _ h => exact hedge _ _ h

/-- C3 witness: the theorem applied to the concrete iteration order
`A, B, C` (the identity permutation) and to the concrete acyclic
single-module graph. -/
theorem C3_witness :
    (∃ c, detect_circular_dependencies cycleGraphABC = .ok [c] ∧
      c.cycle.toFinset = ({"A", "B", "C"} : Finset String)) ∧
    detect_circular_dependencies [("X", [])] = .ok [] :=
  ⟨C3_theorem.1 cycleGraphABC (List.Perm.refl _), C3_theorem.2 [("X", [])] acyclic_singleX⟩
